import Mathlib

/-!
Verification development for `mclf/padic_extensions/weak_padic_galois_extensions.py`.

The module defines the class `WeakPadicGaloisExtension`.  We shallowly embed:

* the constructor `__init__` (degree bookkeeping, precondition asserts, the
  `minimal_ramification` adjustment branch),
* the jump-extraction routines `_compute_lower_jumps` / `_compute_upper_jumps`
  as pure functions of the Newton-polygon data and the ramification degree,
* the stateful, attribute-caching methods `ramification_polygon`,
  `ramification_filtration`, `lower_jumps`, `upper_jumps` as explicit
  state-passing functions over an extension-object state.

Python runtime errors (failed `assert`, unbound names, failing `ZZ(...)`
conversions) are modelled with `Except PyErr`.  Sage integers are `ℤ`,
Sage rationals are `ℚ`; `a / b` on Sage integers produces a rational, and
`ZZ(q)` raises unless `q` is integral, which `ZZofRat` reflects.
-/

/-- Runtime errors the embedded Python code can raise. -/
inductive PyErr where
  /-- `assert K.is_Qp()` in `__init__` or `ramification_polygon` fails. -/
  | assertQp : PyErr
  /-- `assert not K.p().divides(minimal_ramification)` fails. -/
  | assertMinimalRamification : PyErr
  /-- `NameError`: the name `eL` on line 160 of `__init__` is unbound. -/
  | nameError_eL : PyErr
  /-- `NameError`: the name `L` on line 353 of `ramification_polygon` is unbound. -/
  | nameError_L : PyErr
  /-- `assert self._degree == self._ramification_degree * self._inertia_degree` fails. -/
  | assertDegree : PyErr
  /-- `TypeError`: `ZZ(q)` applied to a non-integral rational. -/
  | typeErrorZZ : PyErr
  /-- `AttributeError`: reading a cache attribute that was never assigned. -/
  | attributeError : PyErr
  deriving DecidableEq, Repr

/-- `ZZ(q)` for a Sage rational `q`: succeeds exactly on integral values. -/
def ZZofRat (q : ℚ) : Except PyErr ℤ :=
  if q.den = 1 then .ok q.num else .error .typeErrorZZ

/-- The narrow interface of a `FakepAdicCompletion` object that `__init__`
consumes: `is_Qp()`, `p()`, `absolute_ramification_degree()`,
`absolute_degree()`, `absolute_inertia_degree()`.  Both the base field `K`
and the weak splitting field `L` returned by the external collaborator
`K.weak_splitting_field(F)` are values of this type. -/
structure PadicField where
  is_Qp : Bool
  p : ℤ
  absRamificationDegree : ℤ
  absDegree : ℤ
  absInertiaDegree : ℤ
  deriving DecidableEq, Repr

/-- A side of a Newton polygon, as returned by `NP.sides()`: a pair of
vertices `(v1, v2)` with `v1` preceding `v2` left to right. -/
abbrev Side : Type := (ℚ × ℚ) × (ℚ × ℚ)

/-- The state of a `WeakPadicGaloisExtension` object: the fields assigned by
`__init__` plus the three lazily assigned cache attributes
(`_ramification_polygon`, modelled by its list of sides, `_lower_jumps`,
`_upper_jumps`); `none` models the attribute being absent (`hasattr` false). -/
structure ExtState where
  isQp : Bool
  ramification_degree : ℤ
  degree : ℤ
  inertia_degree : ℤ
  polygonCache : Option (List Side)
  lowerCache : Option (List (ℚ × ℚ))
  upperCache : Option (List (ℚ × ℚ))
  deriving DecidableEq, Repr

/-- `WeakPadicGaloisExtension.__init__(K, F, minimal_ramification)`.

The polynomial argument `F` is only passed on to the external collaborator
`K.weak_splitting_field(F)`; we take the collaborator's answer `L` as a
parameter instead.  Statement order follows the source: the two asserts,
then `e = ZZ(L.absolute_ramification_degree()/K.absolute_ramification_degree())`,
then the `minimal_ramification.divides(e)` branch (whose else-branch reads the
unbound name `eL` and therefore raises `NameError` before anything else
happens), then the degree fields and the final consistency assert. -/
def WeakPadicGaloisExtension_init (K L : PadicField) (minimal_ramification : ℤ) :
    Except PyErr ExtState :=
  if K.is_Qp = false then .error .assertQp
  else if K.p ∣ minimal_ramification then .error .assertMinimalRamification
  else
    match ZZofRat ((L.absRamificationDegree : ℚ) / (K.absRamificationDegree : ℚ)) with
    | .error err => .error err
    | .ok e =>
      if ¬ minimal_ramification ∣ e then
        -- `m = ZZ(eL*minimal_ramification/e.gcd(minimal_ramification))`:
        -- the name `eL` is not defined anywhere in scope.
        .error .nameError_eL
      else
        let m : ℤ := 1
        match ZZofRat ((L.absDegree : ℚ) / (K.absDegree : ℚ)) with
        | .error err => .error err
        | .ok deg =>
          match ZZofRat ((L.absInertiaDegree : ℚ) / (K.absInertiaDegree : ℚ)) with
          | .error err => .error err
          | .ok f =>
            if deg = e * m * f then
              .ok { isQp := K.is_Qp
                    ramification_degree := e * m
                    degree := deg
                    inertia_degree := f
                    polygonCache := none
                    lowerCache := none
                    upperCache := none }
            else .error .assertDegree

/-- The value `u = (v1[1]-v2[1])/(v2[0]-v1[0]) - 1` computed for a polygon
side in `_compute_lower_jumps` (jump = -slope - 1). -/
def sideU (s : Side) : ℚ :=
  (s.1.2 - s.2.2) / (s.2.1 - s.1.1) - 1

/-- The pair `(u, m)` appended for one side: `m = self.ramification_degree()`
when `u == 0` (the polygon does not distinguish `Gamma` and `Gamma_0`),
otherwise `m = v2[0] + 1`. -/
def sideJump (e : ℚ) (s : Side) : ℚ × ℚ :=
  (sideU s, if sideU s = 0 then e else s.2.1 + 1)

/-- The `for v1, v2 in NP.sides(): jumps.append((u, m))` loop. -/
def jumpsLoop (e : ℚ) : List Side → List (ℚ × ℚ)
  | [] => []
  | s :: rest => sideJump e s :: jumpsLoop e rest

/-- `if len(jumps) >= 2 and jumps[0][1] == jumps[1][1]: jumps = jumps[1:]`
(a `u=0` entry that is not a jump is dropped). -/
def dropFirstIfSameOrder : List (ℚ × ℚ) → List (ℚ × ℚ)
  | j0 :: j1 :: rest => if j0.2 = j1.2 then j1 :: rest else j0 :: j1 :: rest
  | jumps => jumps

/-- The side-list-to-jump-list transformation of `_compute_lower_jumps`
after the polygon has been obtained: loop, `jumps.reverse()`, drop. -/
def lowerJumpsFromSides (sides : List Side) (e : ℚ) : List (ℚ × ℚ) :=
  dropFirstIfSameOrder ((jumpsLoop e sides).reverse)

/-- `_compute_lower_jumps` as a pure function of the polygon's sides and the
ramification degree: the empty list when `self.ramification_degree() == 1`,
otherwise the loop/reverse/drop transformation. -/
def computeLowerJumps (sides : List Side) (e : ℤ) : List (ℚ × ℚ) :=
  if e = 1 then [] else lowerJumpsFromSides sides (e : ℚ)

/-- Modelled from the spec: the lower-jump algorithm exactly as §4.4 / claim
C2 word it — per side `u = (v1.y - v2.y)/(v2.x - v1.x) - 1`, `m = v2.x + 1`
unless `u = 0` in which case `m` is the ramification degree; collect, reverse,
drop the first pair when the first two share the same order; empty list when
the ramification degree is 1.  Compared against `computeLowerJumps`. -/
def specLowerJumps (sides : List Side) (e : ℤ) : List (ℚ × ℚ) :=
  if e = 1 then []
  else
    let pairs := sides.map fun s =>
      ((s.1.2 - s.2.2) / (s.2.1 - s.1.1) - 1,
        if (s.1.2 - s.2.2) / (s.2.1 - s.1.1) - 1 = 0 then (e : ℚ) else s.2.1 + 1)
    match pairs.reverse with
    | j0 :: j1 :: rest => if j0.2 = j1.2 then j1 :: rest else j0 :: j1 :: rest
    | l => l

/-- The loop `u.append(u[i-1]+(m[i]-m[i-1])*g[i]/e)` of
`_compute_upper_jumps`, with the accumulator `uPrev = u[i-1]`,
`mPrev = m[i-1]`.  The pattern names follow the source's destructuring
`for m_i, g_i in jumps` — the first component of each pair (a lower jump)
is called `m`, the second (a subgroup order) `g`. -/
def upperStep (e : ℚ) : ℚ → ℚ → List (ℚ × ℚ) → List (ℚ × ℚ)
  | _, _, [] => []
  | uPrev, mPrev, (mi, gi) :: tl =>
      (uPrev + (mi - mPrev) * gi / e, gi) ::
        upperStep e (uPrev + (mi - mPrev) * gi / e) mi tl

/-- `_compute_upper_jumps` as a pure function of the lower filtration and the
ramification degree: `u[0] = m[0]*g[0]/e`, then the recurrence, producing
`[(u[i], g[i]) for i in range(len(jumps))]`; `[]` when the lower jumps are
empty. -/
def computeUpperJumps (jumps : List (ℚ × ℚ)) (e : ℚ) : List (ℚ × ℚ) :=
  match jumps with
  | [] => []
  | (m0, g0) :: rest => (m0 * g0 / e, g0) :: upperStep e (m0 * g0 / e) m0 rest

/-- Modelled from the spec: the upper-numbering transform exactly as §4.5 /
claim C1 word it — for lower jumps `(u_i, m_i)` it sets `g_i := m_i`
("g and m coincide"), `phi(u_0) = m_0 * g_0 / e` and
`phi(u_i) = phi(u_{i-1}) + (m_i - m_{i-1}) * g_i / e`, producing
`(phi(u_i), m_i)`.  Compared against `computeUpperJumps`. -/
def specUpperStep (e : ℚ) : ℚ → ℚ → List (ℚ × ℚ) → List (ℚ × ℚ)
  | _, _, [] => []
  | phiPrev, mPrev, (_, mi) :: tl =>
      (phiPrev + (mi - mPrev) * mi / e, mi) ::
        specUpperStep e (phiPrev + (mi - mPrev) * mi / e) mi tl

/-- Modelled from the spec (see `specUpperStep`): the whole transform of
claim C1, with `phi(u_0) = m_0 * g_0 / e = m_0 * m_0 / e`. -/
def specUpperJumps (jumps : List (ℚ × ℚ)) (e : ℚ) : List (ℚ × ℚ) :=
  match jumps with
  | [] => []
  | (_, m0) :: rest => (m0 * m0 / e, m0) :: specUpperStep e (m0 * m0 / e) m0 rest

/-- `WeakPadicGaloisExtension.ramification_polygon(self)`.  On a cache hit
the stored polygon (modelled by its list of sides) is returned unchanged.
On a cache miss the body first asserts `self.base_field().is_Qp()` and then
executes `P = L.polynomial()`, where the name `L` is not defined anywhere in
scope, raising `NameError` before anything can be computed or stored. -/
def ramification_polygon (s : ExtState) : Except PyErr (List Side × ExtState) :=
  match s.polygonCache with
  | some NP => .ok (NP, s)
  | none => if s.isQp = false then .error .assertQp else .error .nameError_L

/-- `WeakPadicGaloisExtension._compute_lower_jumps(self)`: stores `[]` when
`self.ramification_degree() == 1`, otherwise fetches the ramification polygon
and stores the loop/reverse/drop transformation of its sides. -/
def _compute_lower_jumps (s : ExtState) : Except PyErr ExtState :=
  if s.ramification_degree = 1 then .ok { s with lowerCache := some [] }
  else
    match ramification_polygon s with
    | .error err => .error err
    | .ok (NP, s1) =>
        let jumps := lowerJumpsFromSides NP (s1.ramification_degree : ℚ)
        .ok { s1 with lowerCache := some jumps }

/-- The `upper_numbering=False` branch of
`WeakPadicGaloisExtension.ramification_filtration`: return `self._lower_jumps`
if present, else `self._compute_lower_jumps()` followed by reading the
attribute. -/
def ramification_filtration_lower (s : ExtState) :
    Except PyErr (List (ℚ × ℚ) × ExtState) :=
  match s.lowerCache with
  | some jumps => .ok (jumps, s)
  | none =>
      match _compute_lower_jumps s with
      | .error err => .error err
      | .ok s1 =>
          match s1.lowerCache with
          | some jumps => .ok (jumps, s1)
          | none => .error .attributeError

/-- `WeakPadicGaloisExtension.lower_jumps(self)`:
`[u for u, m in self.ramification_filtration()]` (default lower numbering). -/
def lower_jumps (s : ExtState) : Except PyErr (List ℚ × ExtState) :=
  match ramification_filtration_lower s with
  | .error err => .error err
  | .ok (jumps, s1) => .ok (jumps.map Prod.fst, s1)

/-- `WeakPadicGaloisExtension._compute_upper_jumps(self)`: if
`self.lower_jumps() == []` store `[]`, else read the lower filtration and
store the Herbrand-style transform. -/
def _compute_upper_jumps (s : ExtState) : Except PyErr ExtState :=
  match lower_jumps s with
  | .error err => .error err
  | .ok (lj, s1) =>
      if lj = [] then .ok { s1 with upperCache := some [] }
      else
        match ramification_filtration_lower s1 with
        | .error err => .error err
        | .ok (jumps, s2) =>
            let uj := computeUpperJumps jumps (s2.ramification_degree : ℚ)
            .ok { s2 with upperCache := some uj }

/-- The `upper_numbering=True` branch of `ramification_filtration`. -/
def ramification_filtration_upper (s : ExtState) :
    Except PyErr (List (ℚ × ℚ) × ExtState) :=
  match s.upperCache with
  | some jumps => .ok (jumps, s)
  | none =>
      match _compute_upper_jumps s with
      | .error err => .error err
      | .ok s1 =>
          match s1.upperCache with
          | some jumps => .ok (jumps, s1)
          | none => .error .attributeError

/-- `WeakPadicGaloisExtension.ramification_filtration(self, upper_numbering)`. -/
def ramification_filtration (upper_numbering : Bool) (s : ExtState) :
    Except PyErr (List (ℚ × ℚ) × ExtState) :=
  if upper_numbering then ramification_filtration_upper s
  else ramification_filtration_lower s

/-- `WeakPadicGaloisExtension.upper_jumps(self)`:
`[u for u, m in self.ramification_filtration(upper_numbering=True)]`. -/
def upper_jumps (s : ExtState) : Except PyErr (List ℚ × ExtState) :=
  match ramification_filtration true s with
  | .error err => .error err
  | .ok (jumps, s1) => .ok (jumps.map Prod.fst, s1)

/-- The slope of a polygon side. -/
def sideSlope (s : Side) : ℚ :=
  (s.2.2 - s.1.2) / (s.2.1 - s.1.1)

/-- The sides of a polygon given by its list of vertices: adjacent pairs,
left to right. -/
def polySides : List (ℚ × ℚ) → List Side
  | v1 :: v2 :: rest => (v1, v2) :: polySides (v2 :: rest)
  | _ => []

/-- What it means for a vertex list to be the Newton polygon of a
ramification polynomial of an extension of ramification degree `e`: at least
one side; the leftmost vertex has abscissa `0` and the rightmost `e - 1`
(the ramification polynomial `G = P(x+pi)/x` has degree `e - 1` and the
polygon is the lower convex hull of `(i, v(G_i))` for `i = 0..e-1`);
abscissae strictly increase and slopes strictly increase left to right
(convexity); and every slope is at most `-1` (the source docstring: the
strictly negative slopes are `-(u+1)` for jumps `u >= 0`). -/
structure IsRamificationPolygon (vs : List (ℚ × ℚ)) (e : ℤ) : Prop where
  two_le : 2 ≤ vs.length
  first_x : vs.head?.map Prod.fst = some 0
  last_x : vs.getLast?.map Prod.fst = some ((e : ℚ) - 1)
  x_lt : vs.Chain' fun a b => a.1 < b.1
  slope_lt : (polySides vs).Chain' fun s t => sideSlope s < sideSlope t
  slope_le : ∀ s ∈ polySides vs, sideSlope s ≤ -1

/-- C4: For every successfully constructed `WeakPadicGaloisExtension`, the
stored degree equals the stored ramification degree times the stored inertia
degree; the constructor's final assert checks exactly this, so success of
construction entails the invariant. -/
theorem degree_eq_ramification_mul_inertia (K L : PadicField)
    (minimal_ramification : ℤ) (s : ExtState)
    (h : WeakPadicGaloisExtension_init K L minimal_ramification = .ok s) :
    s.degree = s.ramification_degree * s.inertia_degree := by
  unfold WeakPadicGaloisExtension_init at h
  split at h
  · exact absurd h (by simp)
  · split at h
    · exact absurd h (by simp)
    · split at h
      · exact absurd h (by simp)
      · split at h
        · exact absurd h (by simp)
        · split at h
          · exact absurd h (by simp)
          · split at h
            · exact absurd h (by simp)
            · dsimp only at h
              split at h
              · rename_i hdeg
                injection h with h
                subst h
                simpa using hdeg
              · exact absurd h (by simp)

/-- A concrete successful construction: the trivial extension of `Q_2`
(`L = K`, all absolute degrees `1`, `minimal_ramification = 1`). -/
theorem init_trivial_eval :
    WeakPadicGaloisExtension_init ⟨true, 2, 1, 1, 1⟩ ⟨true, 2, 1, 1, 1⟩ 1 =
      .ok ⟨true, 1, 1, 1, none, none, none⟩ := by
  norm_num [WeakPadicGaloisExtension_init, ZZofRat]

/-- C5: For every successfully constructed `WeakPadicGaloisExtension`, the
stored ramification degree is a multiple of the requested
`minimal_ramification`: construction only succeeds through the branch where
`minimal_ramification.divides(e)` holds, and there `m = 1` and
`ramification_degree = e * m = e`. -/
theorem ramification_degree_multiple_of_minimal (K L : PadicField)
    (minimal_ramification : ℤ) (s : ExtState)
    (h : WeakPadicGaloisExtension_init K L minimal_ramification = .ok s) :
    minimal_ramification ∣ s.ramification_degree := by
  unfold WeakPadicGaloisExtension_init at h
  split at h
  · exact absurd h (by simp)
  · split at h
    · exact absurd h (by simp)
    · split at h
      · exact absurd h (by simp)
      · split at h
        · exact absurd h (by simp)
        · split at h
          · exact absurd h (by simp)
          · split at h
            · exact absurd h (by simp)
            · dsimp only at h
              split at h
              · injection h with h
                subst h
                simpa using not_not.mp (by assumption)
              · exact absurd h (by simp)

/-- Witness for C5: in the trivial construction over `Q_2`,
`minimal_ramification = 1` divides the stored ramification degree `1`. -/
theorem ramification_degree_multiple_of_minimal_witness :
    WeakPadicGaloisExtension_init ⟨true, 2, 1, 1, 1⟩ ⟨true, 2, 1, 1, 1⟩ 1 =
      .ok ⟨true, 1, 1, 1, none, none, none⟩ ∧
    (1 : ℤ) ∣ (ExtState.mk true 1 1 1 none none none).ramification_degree :=
  ⟨init_trivial_eval,
    ramification_degree_multiple_of_minimal ⟨true, 2, 1, 1, 1⟩ ⟨true, 2, 1, 1, 1⟩ 1 _
      init_trivial_eval⟩

/-- The only error `ZZofRat` can produce is `typeErrorZZ`. -/
lemma ZZofRat_error (q : ℚ) (err : PyErr) (h : ZZofRat q = .error err) :
    err = .typeErrorZZ := by
  unfold ZZofRat at h
  split at h
  · exact absurd h (by simp)
  · injection h with h
    exact h.symm

/-- Once both preconditions hold, `__init__` can only end in the unbound-name
error, a failed `ZZ(...)` conversion, the final degree assert, or success. -/
lemma init_outcomes (K L : PadicField) (mr : ℤ) (hqp : K.is_Qp = true)
    (hdvd : ¬ K.p ∣ mr) :
    WeakPadicGaloisExtension_init K L mr = .error .typeErrorZZ ∨
    WeakPadicGaloisExtension_init K L mr = .error .nameError_eL ∨
    WeakPadicGaloisExtension_init K L mr = .error .assertDegree ∨
    ∃ s, WeakPadicGaloisExtension_init K L mr = .ok s := by
  unfold WeakPadicGaloisExtension_init
  rw [hqp, if_neg (by simp), if_neg hdvd]
  split
  · rename_i err heq
    rw [ZZofRat_error _ _ heq]
    exact Or.inl rfl
  · split
    · exact Or.inr (Or.inl rfl)
    · dsimp only
      split
      · rename_i err heq
        rw [ZZofRat_error _ _ heq]
        exact Or.inl rfl
      · split
        · rename_i err heq
          rw [ZZofRat_error _ _ heq]
          exact Or.inl rfl
        · split
          · exact Or.inr (Or.inr (Or.inr ⟨_, rfl⟩))
          · exact Or.inr (Or.inr (Or.inl rfl))

/-- C6: construction fails immediately with the first precondition assert when
the base field is not `Q_p`, fails with the second when `p` divides
`minimal_ramification` (for the prime `p` this is exactly sharing a factor
with `p`), and when both preconditions hold neither of the two assertion
branches is taken, i.e. neither precondition error is the outcome. -/
theorem init_precondition_errors (K L : PadicField) (minimal_ramification : ℤ) :
    (K.is_Qp = false →
      WeakPadicGaloisExtension_init K L minimal_ramification = .error .assertQp) ∧
    (K.is_Qp = true → K.p ∣ minimal_ramification →
      WeakPadicGaloisExtension_init K L minimal_ramification =
        .error .assertMinimalRamification) ∧
    (K.is_Qp = true → ¬ K.p ∣ minimal_ramification →
      WeakPadicGaloisExtension_init K L minimal_ramification ≠ .error .assertQp ∧
      WeakPadicGaloisExtension_init K L minimal_ramification ≠
        .error .assertMinimalRamification) := by
  refine ⟨fun hqp => ?_, fun hqp hdvd => ?_, fun hqp hdvd => ?_⟩
  · unfold WeakPadicGaloisExtension_init
    simp [hqp]
  · unfold WeakPadicGaloisExtension_init
    simp [hqp, hdvd]
  · rcases init_outcomes K L minimal_ramification hqp hdvd with h | h | h | ⟨s, h⟩ <;>
      rw [h] <;> exact ⟨by simp, by simp⟩

/-- Witness for C6: over `Q_2` with `minimal_ramification = 3` (prime to 2),
both preconditions hold and the construction outcome is neither of the two
precondition errors. -/
theorem init_precondition_errors_witness :
    (PadicField.mk true 2 1 1 1).is_Qp = true ∧
    ¬ (PadicField.mk true 2 1 1 1).p ∣ (3 : ℤ) ∧
    (WeakPadicGaloisExtension_init ⟨true, 2, 1, 1, 1⟩ ⟨true, 2, 2, 2, 1⟩ 3 ≠
        .error .assertQp ∧
      WeakPadicGaloisExtension_init ⟨true, 2, 1, 1, 1⟩ ⟨true, 2, 2, 2, 1⟩ 3 ≠
        .error .assertMinimalRamification) :=
  ⟨rfl, by decide,
    (init_precondition_errors ⟨true, 2, 1, 1, 1⟩ ⟨true, 2, 2, 2, 1⟩ 3).2.2 rfl (by decide)⟩

/-- C3 (code bug): with `K = Q_2`, `minimal_ramification = 3` and a splitting
field of ramification index `e = 2` (so that `3` does not divide `e`), the
constructor reaches the enlargement branch and raises
`NameError: name 'eL' is not defined` instead of computing `m` and replacing
`L` by `L.ramified_extension(m)` as the spec describes. -/
theorem init_unbound_eL_failure :
    WeakPadicGaloisExtension_init ⟨true, 2, 1, 1, 1⟩ ⟨true, 2, 2, 2, 1⟩ 3 =
      .error .nameError_eL := by
  norm_num [WeakPadicGaloisExtension_init, ZZofRat]

/-- Witness for C4: a concrete successful construction (trivial extension of
`Q_2`) where the invariant evaluates to `1 = 1 * 1`. -/
theorem degree_eq_ramification_mul_inertia_witness :
    WeakPadicGaloisExtension_init ⟨true, 2, 1, 1, 1⟩ ⟨true, 2, 1, 1, 1⟩ 1 =
      .ok ⟨true, 1, 1, 1, none, none, none⟩ ∧
    (ExtState.mk true 1 1 1 none none none).degree =
      (ExtState.mk true 1 1 1 none none none).ramification_degree *
        (ExtState.mk true 1 1 1 none none none).inertia_degree :=
  ⟨init_trivial_eval,
    degree_eq_ramification_mul_inertia ⟨true, 2, 1, 1, 1⟩ ⟨true, 2, 1, 1, 1⟩ 1 _ init_trivial_eval⟩

/-- `jumpsLoop` is the elementwise image of the sides. -/
lemma jumpsLoop_eq_map (e : ℚ) : ∀ sides : List Side,
    jumpsLoop e sides = sides.map (sideJump e)
  | [] => rfl
  | s :: rest => by
      simp only [jumpsLoop, List.map_cons, jumpsLoop_eq_map e rest]

/-- C2: the lower-jump computation agrees, for every list of polygon sides
and every ramification degree, with the algorithm exactly as the claim
describes it (per-side jump and order formulas with the `u = 0` override,
reversal, conditional drop of the first pair, empty result for
ramification degree 1). -/
theorem lower_jumps_algorithm_spec (sides : List Side) (e : ℤ) :
    computeLowerJumps sides e = specLowerJumps sides e := by
  unfold computeLowerJumps specLowerJumps lowerJumpsFromSides
  split
  · rfl
  · rw [jumpsLoop_eq_map]
    have hfun : sideJump (e : ℚ) = fun s : Side =>
        ((s.1.2 - s.2.2) / (s.2.1 - s.1.1) - 1,
          if (s.1.2 - s.2.2) / (s.2.1 - s.1.1) - 1 = 0 then (e : ℚ) else s.2.1 + 1) := by
      funext s
      simp only [sideJump, sideU]
    rw [hfun]
    dsimp only
    generalize (List.map _ sides).reverse = l
    cases l with
    | nil => rfl
    | cons j0 t =>
      cases t with
      | nil => rfl
      | cons j1 rest => rfl

/-- `upperStep` preserves length. -/
lemma upperStep_length (e : ℚ) : ∀ (tl : List (ℚ × ℚ)) (uPrev mPrev : ℚ),
    (upperStep e uPrev mPrev tl).length = tl.length
  | [], _, _ => rfl
  | (mi, gi) :: tl, uPrev, mPrev => by
      simp only [upperStep, List.length_cons, upperStep_length e tl]

/-- `upperStep` preserves the second components pointwise. -/
lemma upperStep_snd (e : ℚ) : ∀ (tl : List (ℚ × ℚ)) (uPrev mPrev : ℚ) (i : ℕ),
    ((upperStep e uPrev mPrev tl)[i]?).map Prod.snd = (tl[i]?).map Prod.snd
  | [], _, _, _ => rfl
  | (mi, gi) :: tl, uPrev, mPrev, 0 => by
      simp [upperStep]
  | (mi, gi) :: tl, uPrev, mPrev, i + 1 => by
      simp only [upperStep, List.getElem?_cons_succ]
      exact upperStep_snd e tl _ mi i

/-- Adjacent entries of `upperStep` satisfy the cumulative recurrence. -/
lemma upperStep_chain (e : ℚ) (tl : List (ℚ × ℚ)) :
    ∀ (uPrev mPrev : ℚ) (i : ℕ) (pi pj qi qj : ℚ × ℚ),
    (upperStep e uPrev mPrev tl)[i]? = some pi →
    (upperStep e uPrev mPrev tl)[i + 1]? = some pj →
    tl[i]? = some qi → tl[i + 1]? = some qj →
    pj.1 = pi.1 + (qj.1 - qi.1) * qj.2 / e := by
  induction tl with
  | nil =>
      intro uPrev mPrev i pi pj qi qj h1 _ _ _
      simp [upperStep] at h1
  | cons hd tl ih =>
      obtain ⟨m1, g1⟩ := hd
      intro uPrev mPrev i pi pj qi qj h1 h2 h3 h4
      match i with
      | 0 =>
          cases tl with
          | nil =>
              simp [upperStep] at h2
          | cons hd2 tl2 =>
              obtain ⟨m2, g2⟩ := hd2
              simp only [upperStep, List.getElem?_cons_zero, List.getElem?_cons_succ,
                Option.some_inj] at h1 h2 h3 h4
              subst h1
              subst h2
              subst h3
              subst h4
              simp
      | i + 1 =>
          simp only [upperStep, List.getElem?_cons_succ] at h1 h2 h3 h4
          exact ih _ m1 i pi pj qi qj h1 h2 h3 h4

/-- C1 counterexample: for the lower filtration `[(1, 2)]` with
ramification degree `e = 2` (one jump at `u = 1` with subgroup order `2`),
the code produces upper jump `1 * 2 / 2 = 1` while the claim's formula
`phi(u_0) = m_0 * g_0 / e` with `g_0 := m_0` (the order reused) predicts
`2 * 2 / 2 = 2`; the two disagree. -/
theorem upper_jumps_claim_formula_counterexample :
    computeUpperJumps [((1 : ℚ), (2 : ℚ))] 2 = [((1 : ℚ), (2 : ℚ))] ∧
    specUpperJumps [((1 : ℚ), (2 : ℚ))] 2 = [((2 : ℚ), (2 : ℚ))] ∧
    computeUpperJumps [((1 : ℚ), (2 : ℚ))] 2 ≠ specUpperJumps [((1 : ℚ), (2 : ℚ))] 2 := by
  refine ⟨?_, ?_, ?_⟩ <;>
    norm_num [computeUpperJumps, specUpperJumps, upperStep, specUpperStep]

/-- C1 as amended: for every non-empty lower filtration `(u_i, m_i)` the
upper-numbering computation produces a list of the same length whose second
components are the orders `m_i` unchanged, whose first entry is
`phi(u_0) = u_0 * m_0 / e` (the jump value times the order, not the order
squared), and whose consecutive first components satisfy
`phi(u_i) = phi(u_{i-1}) + (u_i - u_{i-1}) * m_i / e`. -/
theorem upper_jumps_herbrand_recurrence (jumps : List (ℚ × ℚ)) (e : ℚ)
    (hne : jumps ≠ []) :
    (computeUpperJumps jumps e).length = jumps.length ∧
    (∀ i : ℕ, ((computeUpperJumps jumps e)[i]?).map Prod.snd =
      (jumps[i]?).map Prod.snd) ∧
    (∀ (u0 m0 : ℚ) (tl : List (ℚ × ℚ)), jumps = (u0, m0) :: tl →
      (computeUpperJumps jumps e)[0]? = some (u0 * m0 / e, m0)) ∧
    (∀ (i : ℕ) (pi pj qi qj : ℚ × ℚ),
      (computeUpperJumps jumps e)[i]? = some pi →
      (computeUpperJumps jumps e)[i + 1]? = some pj →
      jumps[i]? = some qi → jumps[i + 1]? = some qj →
      pj.1 = pi.1 + (qj.1 - qi.1) * qj.2 / e) := by
  match jumps, hne with
  | (m0, g0) :: rest, _ =>
    refine ⟨?_, ?_, ?_, ?_⟩
    · simp [computeUpperJumps, upperStep_length]
    · intro i
      match i with
      | 0 => simp [computeUpperJumps]
      | i + 1 =>
          simp only [computeUpperJumps, List.getElem?_cons_succ]
          exact upperStep_snd e rest _ m0 i
    · intro u0 m0' tl heq
      injection heq with h1 h2
      injection h1 with hu hm
      subst hu
      subst hm
      simp [computeUpperJumps]
    · intro i pi pj qi qj h1 h2 h3 h4
      match i with
      | 0 =>
          cases rest with
          | nil =>
              simp [computeUpperJumps, upperStep] at h2
          | cons hd2 tl2 =>
              obtain ⟨m1, g1⟩ := hd2
              simp only [computeUpperJumps, upperStep, List.getElem?_cons_zero,
                List.getElem?_cons_succ, Option.some_inj] at h1 h2 h3 h4
              subst h1
              subst h2
              subst h3
              subst h4
              simp
      | i + 1 =>
          simp only [computeUpperJumps, List.getElem?_cons_succ] at h1 h2 h3 h4
          exact upperStep_chain e rest _ m0 i pi pj qi qj h1 h2 h3 h4

/-- Witness for the amended C1, at the lower filtration `[(0, 6), (1, 3)]`
with `e = 6` (the documented example `x^6+6x^4+6x^3+18` over `Q_3`). -/
theorem upper_jumps_herbrand_recurrence_witness :
    ([((0 : ℚ), (6 : ℚ)), ((1 : ℚ), (3 : ℚ))] : List (ℚ × ℚ)) ≠ [] ∧
    (computeUpperJumps [((0 : ℚ), (6 : ℚ)), ((1 : ℚ), (3 : ℚ))] 6).length =
      ([((0 : ℚ), (6 : ℚ)), ((1 : ℚ), (3 : ℚ))] : List (ℚ × ℚ)).length :=
  ⟨by simp, (upper_jumps_herbrand_recurrence _ 6 (by simp)).1⟩

/-- C8: whenever `ramification_polygon` returns successfully, the returned
polygon is exactly the stored `_ramification_polygon` attribute of the
resulting state, and calling the method again returns the identical cached
object with the state unchanged — the cache is never recomputed or
invalidated. -/
theorem ramification_polygon_memoized (s : ExtState) (NP : List Side)
    (s1 : ExtState) (h : ramification_polygon s = .ok (NP, s1)) :
    s1.polygonCache = some NP ∧ ramification_polygon s1 = .ok (NP, s1) := by
  unfold ramification_polygon at h
  split at h
  · rename_i P hc
    injection h with h
    have hP : P = NP := congrArg Prod.fst h
    have hs : s = s1 := congrArg Prod.snd h
    subst hP
    subst hs
    refine ⟨hc, ?_⟩
    unfold ramification_polygon
    rw [hc]
  · split at h <;> simp at h

/-- Witness for C8: a state whose polygon cache holds one side. -/
theorem ramification_polygon_memoized_witness :
    ramification_polygon
        (ExtState.mk true 2 2 1 (some [(((0 : ℚ), (1 : ℚ)), ((1 : ℚ), (0 : ℚ)))]) none none) =
      .ok ([(((0 : ℚ), (1 : ℚ)), ((1 : ℚ), (0 : ℚ)))],
        ExtState.mk true 2 2 1 (some [(((0 : ℚ), (1 : ℚ)), ((1 : ℚ), (0 : ℚ)))]) none none) ∧
    ((ExtState.mk true 2 2 1 (some [(((0 : ℚ), (1 : ℚ)), ((1 : ℚ), (0 : ℚ)))]) none none).polygonCache =
        some [(((0 : ℚ), (1 : ℚ)), ((1 : ℚ), (0 : ℚ)))] ∧
      ramification_polygon
          (ExtState.mk true 2 2 1 (some [(((0 : ℚ), (1 : ℚ)), ((1 : ℚ), (0 : ℚ)))]) none none) =
        .ok ([(((0 : ℚ), (1 : ℚ)), ((1 : ℚ), (0 : ℚ)))],
          ExtState.mk true 2 2 1 (some [(((0 : ℚ), (1 : ℚ)), ((1 : ℚ), (0 : ℚ)))]) none none)) :=
  ⟨rfl,
    ramification_polygon_memoized
      (ExtState.mk true 2 2 1 (some [(((0 : ℚ), (1 : ℚ)), ((1 : ℚ), (0 : ℚ)))]) none none)
      [(((0 : ℚ), (1 : ℚ)), ((1 : ℚ), (0 : ℚ)))]
      (ExtState.mk true 2 2 1 (some [(((0 : ℚ), (1 : ℚ)), ((1 : ℚ), (0 : ℚ)))]) none none)
      rfl⟩

/-- C10: on any extension object with ramification degree above 1 and all
three caches empty (as `__init__` leaves them), the first call to
`ramification_polygon` — and therefore to `ramification_filtration` in
either numbering, to `lower_jumps` and to `upper_jumps` — raises
`NameError` on the unbound name `L`. -/
theorem uncached_polygon_calls_raise_nameError (s : ExtState)
    (hq : s.isQp = true) (he : 1 < s.ramification_degree)
    (hpoly : s.polygonCache = none) (hlow : s.lowerCache = none)
    (hup : s.upperCache = none) :
    ramification_polygon s = .error .nameError_L ∧
    ramification_filtration false s = .error .nameError_L ∧
    ramification_filtration true s = .error .nameError_L ∧
    lower_jumps s = .error .nameError_L ∧
    upper_jumps s = .error .nameError_L := by
  have hne : ¬ s.ramification_degree = 1 := by omega
  have h1 : ramification_polygon s = .error .nameError_L := by
    simp [ramification_polygon, hpoly, hq]
  have h2 : _compute_lower_jumps s = .error .nameError_L := by
    simp [_compute_lower_jumps, hne, h1]
  have h3 : ramification_filtration_lower s = .error .nameError_L := by
    simp [ramification_filtration_lower, hlow, h2]
  have h4 : lower_jumps s = .error .nameError_L := by
    simp [lower_jumps, h3]
  have h5 : _compute_upper_jumps s = .error .nameError_L := by
    simp [_compute_upper_jumps, h4]
  have h6 : ramification_filtration_upper s = .error .nameError_L := by
    simp [ramification_filtration_upper, hup, h5]
  exact ⟨h1, h3, by simp [ramification_filtration, h6], h4,
    by simp [upper_jumps, ramification_filtration, h6]⟩

/-- Witness for C10: the concrete uncached state with `e = 2`. -/
theorem uncached_polygon_calls_raise_nameError_witness :
    (ExtState.mk true 2 2 1 none none none).isQp = true ∧
    1 < (ExtState.mk true 2 2 1 none none none).ramification_degree ∧
    ramification_polygon (ExtState.mk true 2 2 1 none none none) =
      .error .nameError_L ∧
    upper_jumps (ExtState.mk true 2 2 1 none none none) = .error .nameError_L :=
  ⟨rfl, by norm_num,
    (uncached_polygon_calls_raise_nameError _ rfl (by norm_num) rfl rfl rfl).1,
    (uncached_polygon_calls_raise_nameError _ rfl (by norm_num) rfl rfl rfl).2.2.2.2⟩

/-- `polySides` on at least two vertices. -/
lemma polySides_cons (v1 v2 : ℚ × ℚ) (rest : List (ℚ × ℚ)) :
    polySides (v1 :: v2 :: rest) = (v1, v2) :: polySides (v2 :: rest) := rfl

/-- `polySides` on a single vertex. -/
lemma polySides_single (v : ℚ × ℚ) : polySides [v] = [] := rfl

/-- The jump value of a side is minus its slope minus one. -/
lemma sideU_eq_neg_slope (s : Side) : sideU s = -sideSlope s - 1 := by
  unfold sideU sideSlope
  ring

/-- First component of a side's jump pair. -/
lemma sideJump_fst (e : ℚ) (s : Side) : (sideJump e s).1 = sideU s := rfl

/-- Second component of a side's jump pair. -/
lemma sideJump_snd (e : ℚ) (s : Side) :
    (sideJump e s).2 = if sideU s = 0 then e else s.2.1 + 1 := rfl

/-- A side of slope strictly below `-1` has positive jump value. -/
lemma sideU_pos_of_slope_lt (s : Side) (h : sideSlope s < -1) : 0 < sideU s := by
  rw [sideU_eq_neg_slope]
  linarith

/-- In a list of vertices with strictly increasing abscissae, every abscissa
is at most the last one. -/
lemma x_le_last : ∀ (vs : List (ℚ × ℚ)) (c : ℚ),
    vs.Chain' (fun a b => a.1 < b.1) →
    vs.getLast?.map Prod.fst = some c → ∀ v ∈ vs, v.1 ≤ c := by
  intro vs
  induction vs with
  | nil =>
      intro c _ _ v hv
      simp at hv
  | cons v1 rest ih =>
      intro c hchain hlast v hv
      cases rest with
      | nil =>
          have hv1 : v = v1 := by simpa using hv
          subst hv1
          have hc : v.1 = c := by simpa using hlast
          exact le_of_eq hc
      | cons v2 rest2 =>
          rw [List.getLast?_cons_cons] at hlast
          rcases List.mem_cons.mp hv with heq | hmem
          · subst heq
            have h12 : v.1 < v2.1 := (List.chain'_cons.mp hchain).1
            have hv2c : v2.1 ≤ c :=
              ih c (List.chain'_cons.mp hchain).2 hlast v2 (List.mem_cons_self _ _)
            linarith
          · exact ih c (List.chain'_cons.mp hchain).2 hlast v hmem

/-- Core induction for the lower-jump extraction: over a vertex list with at
least one side, strictly increasing abscissae, strictly increasing slopes all
at most `-1`, and rightmost abscissa `e - 1`, the raw (pre-reversal) jump
list has one entry per side, strictly decreasing jump values and strictly
increasing orders along the sides, last order exactly `e`, and all orders at
most `e`. -/
lemma lowerJumps_core (e : ℤ) :
    ∀ (rest : List (ℚ × ℚ)) (v1 v2 : ℚ × ℚ),
    (v1 :: v2 :: rest).Chain' (fun a b => a.1 < b.1) →
    (polySides (v1 :: v2 :: rest)).Chain' (fun s t => sideSlope s < sideSlope t) →
    (∀ s ∈ polySides (v1 :: v2 :: rest), sideSlope s ≤ -1) →
    ((v1 :: v2 :: rest).getLast?.map Prod.fst) = some ((e : ℚ) - 1) →
    (jumpsLoop (e : ℚ) (polySides (v1 :: v2 :: rest))).length =
        (polySides (v1 :: v2 :: rest)).length ∧
    (jumpsLoop (e : ℚ) (polySides (v1 :: v2 :: rest))).Chain'
        (fun p q => q.1 < p.1 ∧ p.2 < q.2) ∧
    ((jumpsLoop (e : ℚ) (polySides (v1 :: v2 :: rest))).getLast?.map Prod.snd) =
        some (e : ℚ) ∧
    (∀ p ∈ jumpsLoop (e : ℚ) (polySides (v1 :: v2 :: rest)), p.2 ≤ (e : ℚ)) := by
  intro rest
  induction rest with
  | nil =>
      intro v1 v2 hx hs hle hlast
      have hv2 : v2.1 = (e : ℚ) - 1 := by simpa using hlast
      have hsnd : (sideJump (e : ℚ) (v1, v2)).2 = (e : ℚ) := by
        rw [sideJump_snd]
        split
        · rfl
        · show v2.1 + 1 = (e : ℚ)
          rw [hv2]
          ring
      refine ⟨rfl, ?_, ?_, ?_⟩
      · simp [polySides_cons, polySides_single, jumpsLoop]
      · simp [polySides_cons, polySides_single, jumpsLoop, hsnd]
      · intro p hp
        simp only [polySides_cons, polySides_single, jumpsLoop,
          List.mem_singleton] at hp
        subst hp
        exact le_of_eq hsnd
  | cons v3 rest' ih =>
      intro v1 v2 hx hs hle hlast
      have hx' : (v2 :: v3 :: rest').Chain' (fun a b => a.1 < b.1) := hx.tail
      rw [polySides_cons] at hs
      have hs' := (List.chain'_cons'.mp hs).2
      have hhead := (List.chain'_cons'.mp hs).1
      have hslope12 : sideSlope (v1, v2) < sideSlope (v2, v3) := by
        apply hhead
        rw [polySides_cons]
        rfl
      have hle23 : sideSlope (v2, v3) ≤ -1 := by
        apply hle
        rw [polySides_cons, polySides_cons]
        exact List.mem_cons_of_mem _ (List.mem_cons_self _ _)
      have hle' : ∀ s ∈ polySides (v2 :: v3 :: rest'), sideSlope s ≤ -1 := by
        intro s hsm
        apply hle
        rw [polySides_cons]
        exact List.mem_cons_of_mem _ hsm
      rw [List.getLast?_cons_cons] at hlast
      obtain ⟨ih1, ih2, ih3, ih4⟩ := ih v2 v3 hx' hs' hle' hlast
      have hu12pos : 0 < sideU (v1, v2) :=
        sideU_pos_of_slope_lt _ (lt_of_lt_of_le hslope12 hle23)
      have hu12ne : sideU (v1, v2) ≠ 0 := ne_of_gt hu12pos
      have hx23 : v2.1 < v3.1 := (List.chain'_cons.mp hx').1
      have hv3 : v3.1 ≤ (e : ℚ) - 1 :=
        x_le_last _ _ hx' hlast v3
          (List.mem_cons_of_mem _ (List.mem_cons_self _ _))
      simp only [polySides_cons, jumpsLoop] at ih1 ih2 ih3 ih4 ⊢
      refine ⟨?_, ?_, ?_, ?_⟩
      · simp only [List.length_cons] at ih1 ⊢
        omega
      · rw [List.chain'_cons]
        refine ⟨⟨?_, ?_⟩, ih2⟩
        · rw [sideJump_fst, sideJump_fst, sideU_eq_neg_slope, sideU_eq_neg_slope]
          linarith
        · rw [sideJump_snd, sideJump_snd, if_neg hu12ne]
          split
          · linarith
          · linarith
      · rw [List.getLast?_cons_cons]
        exact ih3
      · intro p hp
        rcases List.mem_cons.mp hp with heq | hmem
        · subst heq
          rw [sideJump_snd, if_neg hu12ne]
          linarith
        · exact ih4 p hmem

/-- When the raw jump list has strictly decreasing orders from right to left,
the conditional drop after reversal never fires. -/
lemma dropFirstIfSameOrder_of_rev_chain (J : List (ℚ × ℚ))
    (hc : J.Chain' (fun p q => q.1 < p.1 ∧ p.2 < q.2)) :
    dropFirstIfSameOrder J.reverse = J.reverse := by
  have hrc : J.reverse.Chain' (fun p q => p.1 < q.1 ∧ q.2 < p.2) :=
    List.chain'_reverse.mpr hc
  cases hJ : J.reverse with
  | nil => rfl
  | cons j0 t =>
      cases t with
      | nil => rfl
      | cons j1 t2 =>
          rw [hJ] at hrc
          have hne : j0.2 ≠ j1.2 := ne_of_gt (List.chain'_cons.mp hrc).1.2
          simp only [dropFirstIfSameOrder, if_neg hne]

/-- Evaluation of `computeLowerJumps` on a valid ramification polygon: the
`e = 1` branch is not taken, the drop never fires, and the raw jump list has
the shape established by `lowerJumps_core`. -/
lemma computeLowerJumps_eval (vs : List (ℚ × ℚ)) (e : ℤ)
    (h : IsRamificationPolygon vs e) :
    computeLowerJumps (polySides vs) e =
      (jumpsLoop (e : ℚ) (polySides vs)).reverse ∧
    (jumpsLoop (e : ℚ) (polySides vs)).length = (polySides vs).length ∧
    (jumpsLoop (e : ℚ) (polySides vs)).Chain' (fun p q => q.1 < p.1 ∧ p.2 < q.2) ∧
    ((jumpsLoop (e : ℚ) (polySides vs)).getLast?.map Prod.snd) = some (e : ℚ) ∧
    (∀ p ∈ jumpsLoop (e : ℚ) (polySides vs), p.2 ≤ (e : ℚ)) := by
  obtain ⟨h2, hfx, hlx, hx, hs, hle⟩ := h
  match vs, h2 with
  | v1 :: v2 :: rest, _ =>
    obtain ⟨c1, c2, c3, c4⟩ := lowerJumps_core e rest v1 v2 hx hs hle hlx
    have hv1 : v1.1 = 0 := by simpa using hfx
    have h12 : v1.1 < v2.1 := (List.chain'_cons.mp hx).1
    have hv2 : v2.1 ≤ (e : ℚ) - 1 :=
      x_le_last _ _ hx hlx v2
        (List.mem_cons_of_mem _ (List.mem_cons_self _ _))
    have he1 : (1 : ℚ) < (e : ℚ) := by linarith
    have hne : e ≠ 1 := by
      intro hcontra
      rw [hcontra] at he1
      norm_num at he1
    refine ⟨?_, c1, c2, c3, c4⟩
    unfold computeLowerJumps lowerJumpsFromSides
    rw [if_neg hne]
    exact dropFirstIfSameOrder_of_rev_chain _ c2

/-- C7: for every valid ramification polygon, the number of sides equals the
length of the computed lower-jump list (the conditional drop of a spurious
first pair never fires on valid polygon data). -/
theorem polygon_sides_count_eq_lower_jumps_length (vs : List (ℚ × ℚ)) (e : ℤ)
    (h : IsRamificationPolygon vs e) :
    (computeLowerJumps (polySides vs) e).length = (polySides vs).length := by
  obtain ⟨heq, hlen, _, _, _⟩ := computeLowerJumps_eval vs e h
  rw [heq, List.length_reverse, hlen]

/-- C9: for every valid ramification polygon, the computed lower jumps have
strictly increasing jump values, non-increasing (indeed here strictly
decreasing, hence non-increasing) subgroup orders, the first (largest) order
is exactly the ramification degree `e`, and every order is at most `e`. -/
theorem lower_jumps_increasing_orders_bounded (vs : List (ℚ × ℚ)) (e : ℤ)
    (h : IsRamificationPolygon vs e) :
    ((computeLowerJumps (polySides vs) e).map Prod.fst).Chain' (· < ·) ∧
    ((computeLowerJumps (polySides vs) e).map Prod.snd).Chain' (fun a b => b ≤ a) ∧
    ((computeLowerJumps (polySides vs) e).head?.map Prod.snd) = some (e : ℚ) ∧
    (∀ p ∈ computeLowerJumps (polySides vs) e, p.2 ≤ (e : ℚ)) := by
  obtain ⟨heq, _, hchain, hlast, hbound⟩ := computeLowerJumps_eval vs e h
  rw [heq]
  have hrev : (jumpsLoop (e : ℚ) (polySides vs)).reverse.Chain'
      (fun p q => p.1 < q.1 ∧ q.2 < p.2) :=
    List.chain'_reverse.mpr hchain
  refine ⟨?_, ?_, ?_, ?_⟩
  · rw [List.chain'_map]
    exact hrev.imp fun a b hab => hab.1
  · rw [List.chain'_map]
    exact hrev.imp fun a b hab => le_of_lt hab.2
  · rw [List.head?_reverse]
    exact hlast
  · intro p hp
    exact hbound p (List.mem_reverse.mp hp)

/-- A concrete valid ramification polygon: vertices `(0,3), (1,1), (2,0)`
for `e = 3`; slopes `-2 < -1`. -/
lemma sample_polygon_valid :
    IsRamificationPolygon
      [((0 : ℚ), (3 : ℚ)), ((1 : ℚ), (1 : ℚ)), ((2 : ℚ), (0 : ℚ))] 3 := by
  refine ⟨?_, ?_, ?_, ?_, ?_, ?_⟩
  · norm_num
  · norm_num
  · rw [List.getLast?_cons_cons]
    norm_num
  · norm_num [List.chain'_cons]
  · simp only [polySides_cons, polySides_single]
    norm_num [List.chain'_cons, sideSlope]
  · intro s hsm
    simp only [polySides_cons, polySides_single] at hsm
    rcases List.mem_cons.mp hsm with heq | hmem
    · subst heq
      norm_num [sideSlope]
    · have : s = (((1 : ℚ), (1 : ℚ)), ((2 : ℚ), (0 : ℚ))) := by simpa using hmem
      subst this
      norm_num [sideSlope]

/-- Witness for C7: on the sample polygon both sides survive into the
jump list, `2 = 2`. -/
theorem polygon_sides_count_eq_lower_jumps_length_witness :
    IsRamificationPolygon
      [((0 : ℚ), (3 : ℚ)), ((1 : ℚ), (1 : ℚ)), ((2 : ℚ), (0 : ℚ))] 3 ∧
    (computeLowerJumps
        (polySides [((0 : ℚ), (3 : ℚ)), ((1 : ℚ), (1 : ℚ)), ((2 : ℚ), (0 : ℚ))]) 3).length =
      (polySides [((0 : ℚ), (3 : ℚ)), ((1 : ℚ), (1 : ℚ)), ((2 : ℚ), (0 : ℚ))]).length :=
  ⟨sample_polygon_valid,
    polygon_sides_count_eq_lower_jumps_length _ 3 sample_polygon_valid⟩

/-- Witness for C9: on the sample polygon the first computed order is the
ramification degree `3`. -/
theorem lower_jumps_increasing_orders_bounded_witness :
    IsRamificationPolygon
      [((0 : ℚ), (3 : ℚ)), ((1 : ℚ), (1 : ℚ)), ((2 : ℚ), (0 : ℚ))] 3 ∧
    ((computeLowerJumps
        (polySides [((0 : ℚ), (3 : ℚ)), ((1 : ℚ), (1 : ℚ)), ((2 : ℚ), (0 : ℚ))]) 3).head?.map
      Prod.snd) = some ((3 : ℤ) : ℚ) :=
  ⟨sample_polygon_valid,
    (lower_jumps_increasing_orders_bounded _ 3 sample_polygon_valid).2.2.1⟩
